import Mathlib

/-!
Verification of the openOii frontend notification core: the bounded toast
queue (`useToastStore` in `stores/toast.store.ts` together with the severity
facade in `utils/toast.ts`) and the typed canvas event bus
(`components/canvas/canvasEvents.ts`).

The TypeScript is embedded shallowly:
* a JS array of toasts becomes `List Toast`; `toasts.shift()` is `List.drop 1`,
  `filter` is `List.filter`;
* the bus's `Map<EventKind, Set<Callback>>` becomes an association list
  `List (EventKind × List Nat)` whose value lists model the insertion-ordered,
  duplicate-free JS `Set` (callbacks are identified by reference, modelled as
  `Nat` handles); `Set.add` appends when absent, `Set.delete` removes the
  element;
* the nondeterministic id `toast-${Date.now()}-${Math.random()}` is passed to
  `addToast` as an explicit `String` argument (an oracle for the generator).
-/

/-- `ToastType` from `types/errors.ts`: "success" | "error" | "warning" | "info". -/
inductive ToastType where
  | success
  | error
  | warning
  | info
deriving DecidableEq, Repr

/-- Visual variant of a toast action: "primary" | "secondary". -/
inductive ActionVariant where
  | primary
  | secondary
deriving DecidableEq, Repr

/-- `ToastAction` from `types/errors.ts`; the `onClick` closure is modelled by a
reference handle. -/
structure ToastAction where
  label : String
  onClick : Nat
  variant : Option ActionVariant
deriving DecidableEq, Repr

/-- `Toast` from `types/errors.ts`. -/
structure Toast where
  id : String
  type : ToastType
  title : String
  message : String
  duration : Nat
  actions : Option (List ToastAction)
  details : Option String
deriving DecidableEq, Repr

/-- `Omit<Toast, "id">`: the argument of `addToast`. -/
structure ToastInput where
  type : ToastType
  title : String
  message : String
  duration : Nat
  actions : Option (List ToastAction)
  details : Option String
deriving DecidableEq, Repr

/-- `MAX_TOASTS` from `stores/toast.store.ts`. -/
def MAX_TOASTS : Nat := 5

/-- `const newToast = { ...toast, id }`. -/
def mkToast (t : ToastInput) (id : String) : Toast :=
  { id := id
    type := t.type
    title := t.title
    message := t.message
    duration := t.duration
    actions := t.actions
    details := t.details }

/-- `addToast` from `stores/toast.store.ts`, with the generated id passed in
explicitly: append the new toast, then `toasts.shift()` (drop the head) when
the length exceeds `MAX_TOASTS`. -/
def addToast (state : List Toast) (t : ToastInput) (id : String) : List Toast :=
  let newToast := mkToast t id
  let toasts := state ++ [newToast]
  if toasts.length > MAX_TOASTS then toasts.drop 1 else toasts

/-- `removeToast` from `stores/toast.store.ts`:
`state.toasts.filter((t) => t.id !== id)`. -/
def removeToast (state : List Toast) (id : String) : List Toast :=
  state.filter (fun t => decide (t.id ≠ id))

/-- `clearToasts` from `stores/toast.store.ts`: `set({ toasts: [] })`. -/
def clearToasts (_state : List Toast) : List Toast := []

/-- `ToastOptions` from `utils/toast.ts`; optional fields are `Option`s
(`none` = property absent from the caller's object literal). -/
structure ToastOptions where
  title : String
  message : String
  duration : Option Nat
  actions : Option (List ToastAction)
  details : Option String
deriving DecidableEq, Repr

/-- JS object spread `{ ...base, ...options }`: every property present on
`options` overwrites the one on `base`; `title` and `message` are required in
`ToastOptions`, so they always overwrite. -/
def spreadOptions (base : ToastInput) (o : ToastOptions) : ToastInput :=
  { type := base.type
    title := o.title
    message := o.message
    duration := match o.duration with
      | some d => d
      | none => base.duration
    actions := match o.actions with
      | some a => some a
      | none => base.actions
    details := match o.details with
      | some d => some d
      | none => base.details }

/-- `toast.success` from `utils/toast.ts`: the literal
`{ type: "success", duration: options.duration ?? 3000, ...options }`.
The literal's own fields come first, then the spread of `options`. -/
def toast_success (o : ToastOptions) : ToastInput :=
  spreadOptions
    { type := ToastType.success, duration := o.duration.getD 3000
      title := "", message := "", actions := none, details := none } o

/-- `toast.error` from `utils/toast.ts` (default duration 5000). -/
def toast_error (o : ToastOptions) : ToastInput :=
  spreadOptions
    { type := ToastType.error, duration := o.duration.getD 5000
      title := "", message := "", actions := none, details := none } o

/-- `toast.warning` from `utils/toast.ts` (default duration 4000). -/
def toast_warning (o : ToastOptions) : ToastInput :=
  spreadOptions
    { type := ToastType.warning, duration := o.duration.getD 4000
      title := "", message := "", actions := none, details := none } o

/-- `toast.info` from `utils/toast.ts` (default duration 3000). -/
def toast_info (o : ToastOptions) : ToastInput :=
  spreadOptions
    { type := ToastType.info, duration := o.duration.getD 3000
      title := "", message := "", actions := none, details := none } o

/-- Queue states reachable through the store's three operations, starting from
the initial `toasts: []`. The `add` step carries the freshness of the id the
generator produced (`toast-${Date.now()}-${Math.random()}`): it differs from
every id already in the queue. -/
inductive ReachableQueue : List Toast → Prop where
  | empty : ReachableQueue []
  | add (q : List Toast) (t : ToastInput) (id : String) (hq : ReachableQueue q)
      (hfresh : ∀ x ∈ q, x.id ≠ id) : ReachableQueue (addToast q t id)
  | remove (q : List Toast) (id : String) (hq : ReachableQueue q) :
      ReachableQueue (removeToast q id)
  | clearStep (q : List Toast) (hq : ReachableQueue q) :
      ReachableQueue (clearToasts q)

/-- One `addToast` in closed form: evict the head exactly when the queue was
full, then append the new toast built from the input's fields plus the id. -/
lemma addToast_eq (q : List Toast) (t : ToastInput) (id : String) :
    addToast q t id =
      (if MAX_TOASTS < q.length + 1 then q.drop 1 else q) ++ [mkToast t id] := by
  unfold addToast
  simp only [gt_iff_lt, List.length_append, List.length_singleton]
  by_cases h : MAX_TOASTS < q.length + 1
  · simp only [if_pos h]
    cases q with
    | nil => simp [MAX_TOASTS] at h
    | cons a l => simp
  · simp only [if_neg h]

/-- `addToast` never lets the queue grow past `MAX_TOASTS`. -/
lemma addToast_length_le (q : List Toast) (t : ToastInput) (id : String)
    (h : q.length ≤ MAX_TOASTS) : (addToast q t id).length ≤ MAX_TOASTS := by
  rw [addToast_eq]
  simp only [MAX_TOASTS] at h ⊢
  by_cases h1 : 5 < q.length + 1
  · simp only [if_pos h1, List.length_append, List.length_singleton, List.length_drop]
    omega
  · simp only [if_neg h1, List.length_append, List.length_singleton]
    omega

/-- Replaying a list of `addToast` calls from a queue within capacity stays
within capacity. -/
lemma foldl_addToast_length_le (calls : List (ToastInput × String))
    (q : List Toast) (h : q.length ≤ MAX_TOASTS) :
    (calls.foldl (fun acc c => addToast acc c.1 c.2) q).length ≤ MAX_TOASTS := by
  induction calls generalizing q with
  | nil => simpa using h
  | cons c rest ih =>
    simp only [List.foldl_cons]
    exact ih _ (addToast_length_le q c.1 c.2 h)

/-- C1: starting from the empty queue, no sequence of `addToast` calls makes
the queue longer than 5; and adding to a queue that already holds 5 evicts the
oldest entry while the surviving entries keep their relative order (the result
is the old queue minus its head, with the new toast appended). -/
theorem addToast_bounded_fifo (calls : List (ToastInput × String))
    (q : List Toast) (h5 : q.length = MAX_TOASTS) (t : ToastInput) (id : String) :
    (calls.foldl (fun acc c => addToast acc c.1 c.2) []).length ≤ MAX_TOASTS
    ∧ addToast q t id = q.drop 1 ++ [mkToast t id] := by
  constructor
  · exact foldl_addToast_length_le calls [] (by simp)
  · rw [addToast_eq]
    have : MAX_TOASTS < q.length + 1 := by omega
    simp [this]

/-- A concrete run for C1: six toasts titled "T1".."T6" added in order leave
exactly the toasts titled "T2".."T6", in that order, and a full queue evicts
its head. -/
theorem addToast_bounded_fifo_witness :
    (([("T1", "id1"), ("T2", "id2"), ("T3", "id3"), ("T4", "id4"),
       ("T5", "id5"), ("T6", "id6")].map (fun p =>
         (({ type := ToastType.info, title := p.1, message := "m",
             duration := 3000, actions := none, details := none } : ToastInput),
          p.2))).foldl (fun acc c => addToast acc c.1 c.2) []).length ≤ MAX_TOASTS
    ∧ addToast
        [mkToast { type := ToastType.info, title := "T1", message := "m",
                   duration := 3000, actions := none, details := none } "a1",
         mkToast { type := ToastType.info, title := "T2", message := "m",
                   duration := 3000, actions := none, details := none } "a2",
         mkToast { type := ToastType.info, title := "T3", message := "m",
                   duration := 3000, actions := none, details := none } "a3",
         mkToast { type := ToastType.info, title := "T4", message := "m",
                   duration := 3000, actions := none, details := none } "a4",
         mkToast { type := ToastType.info, title := "T5", message := "m",
                   duration := 3000, actions := none, details := none } "a5"]
        { type := ToastType.info, title := "T6", message := "m",
          duration := 3000, actions := none, details := none } "a6"
      = [mkToast { type := ToastType.info, title := "T2", message := "m",
                   duration := 3000, actions := none, details := none } "a2",
         mkToast { type := ToastType.info, title := "T3", message := "m",
                   duration := 3000, actions := none, details := none } "a3",
         mkToast { type := ToastType.info, title := "T4", message := "m",
                   duration := 3000, actions := none, details := none } "a4",
         mkToast { type := ToastType.info, title := "T5", message := "m",
                   duration := 3000, actions := none, details := none } "a5",
         mkToast { type := ToastType.info, title := "T6", message := "m",
                   duration := 3000, actions := none, details := none } "a6"] := by
  have h := addToast_bounded_fifo
    (([("T1", "id1"), ("T2", "id2"), ("T3", "id3"), ("T4", "id4"),
       ("T5", "id5"), ("T6", "id6")].map (fun p =>
         (({ type := ToastType.info, title := p.1, message := "m",
             duration := 3000, actions := none, details := none } : ToastInput),
          p.2))))
    [mkToast { type := ToastType.info, title := "T1", message := "m",
               duration := 3000, actions := none, details := none } "a1",
     mkToast { type := ToastType.info, title := "T2", message := "m",
               duration := 3000, actions := none, details := none } "a2",
     mkToast { type := ToastType.info, title := "T3", message := "m",
               duration := 3000, actions := none, details := none } "a3",
     mkToast { type := ToastType.info, title := "T4", message := "m",
               duration := 3000, actions := none, details := none } "a4",
     mkToast { type := ToastType.info, title := "T5", message := "m",
               duration := 3000, actions := none, details := none } "a5"]
    (by decide)
    { type := ToastType.info, title := "T6", message := "m",
      duration := 3000, actions := none, details := none } "a6"
  exact ⟨h.1, h.2⟩

/-- C10: `addToast` is a pure append of the new toast at the tail, carrying
every caller-supplied field unchanged and only the fresh id added; the
pre-existing entries that survive (all of them, unless the queue was full, in
which case all but the head) are unchanged in value and relative position. -/
theorem addToast_frame (q : List Toast) (t : ToastInput) (id : String) :
    addToast q t id =
      (if MAX_TOASTS < q.length + 1 then q.drop 1 else q)
      ++ [{ id := id, type := t.type, title := t.title, message := t.message,
            duration := t.duration, actions := t.actions, details := t.details }] :=
  addToast_eq q t id

/-- C7: `removeToast` with an id held by no toast in the queue returns the
queue unchanged (no growth, no shrink, no reorder). -/
theorem removeToast_absent (q : List Toast) (id : String)
    (h : ∀ t ∈ q, t.id ≠ id) : removeToast q id = q := by
  unfold removeToast
  exact List.filter_eq_self.mpr (fun t ht => by simpa using h t ht)

/-- Concrete run for C7: removing a missing id from a one-toast queue is the
identity. -/
theorem removeToast_absent_witness :
    removeToast
      [mkToast { type := ToastType.error, title := "E", message := "m",
                 duration := 5000, actions := none, details := none } "toast-a"]
      "toast-b"
    = [mkToast { type := ToastType.error, title := "E", message := "m",
                 duration := 5000, actions := none, details := none } "toast-a"] :=
  removeToast_absent _ _ (by decide)

/-- C3: each severity constructor fixes `type` to its severity and uses the
severity default duration (success=3000, error=5000, warning=4000, info=3000)
when the caller supplies no duration, or the caller's duration when supplied
(`o.duration.getD default` covers both cases); title and message pass through,
and the constructed toast is what `addToast` appends at the tail. -/
theorem severity_defaults (o : ToastOptions) (q : List Toast) (id : String) :
    ((toast_success o).type = ToastType.success
      ∧ (toast_success o).duration = o.duration.getD 3000
      ∧ (toast_success o).title = o.title ∧ (toast_success o).message = o.message)
    ∧ ((toast_error o).type = ToastType.error
      ∧ (toast_error o).duration = o.duration.getD 5000
      ∧ (toast_error o).title = o.title ∧ (toast_error o).message = o.message)
    ∧ ((toast_warning o).type = ToastType.warning
      ∧ (toast_warning o).duration = o.duration.getD 4000
      ∧ (toast_warning o).title = o.title ∧ (toast_warning o).message = o.message)
    ∧ ((toast_info o).type = ToastType.info
      ∧ (toast_info o).duration = o.duration.getD 3000
      ∧ (toast_info o).title = o.title ∧ (toast_info o).message = o.message)
    ∧ (addToast q (toast_success o) id).getLast? = some (mkToast (toast_success o) id)
    ∧ (addToast q (toast_error o) id).getLast? = some (mkToast (toast_error o) id)
    ∧ (addToast q (toast_warning o) id).getLast? = some (mkToast (toast_warning o) id)
    ∧ (addToast q (toast_info o) id).getLast? = some (mkToast (toast_info o) id) := by
  refine ⟨⟨rfl, ?_, rfl, rfl⟩, ⟨rfl, ?_, rfl, rfl⟩, ⟨rfl, ?_, rfl, rfl⟩,
    ⟨rfl, ?_, rfl, rfl⟩, ?_, ?_, ?_, ?_⟩
  · cases h : o.duration <;> simp [toast_success, spreadOptions, h]
  · cases h : o.duration <;> simp [toast_error, spreadOptions, h]
  · cases h : o.duration <;> simp [toast_warning, spreadOptions, h]
  · cases h : o.duration <;> simp [toast_info, spreadOptions, h]
  · rw [addToast_eq]; simp
  · rw [addToast_eq]; simp
  · rw [addToast_eq]; simp
  · rw [addToast_eq]; simp

/-- C9: in every queue state reachable through the store's operations, with
each generated id fresh with respect to the queue (the uniqueness the
timestamp-plus-random composition is designed to provide), all toasts have
pairwise-distinct ids. -/
theorem toast_ids_distinct (q : List Toast) (h : ReachableQueue q) :
    q.Pairwise (fun a b => a.id ≠ b.id) := by
  induction h with
  | empty => exact List.Pairwise.nil
  | add q t id hq hfresh ih =>
    rw [addToast_eq]
    apply List.pairwise_append.mpr
    refine ⟨?_, List.pairwise_singleton _ _, ?_⟩
    · by_cases h1 : MAX_TOASTS < q.length + 1
      · simpa [h1] using List.Pairwise.sublist (List.drop_sublist 1 q) ih
      · simpa [h1] using ih
    · intro a ha b hb
      simp only [List.mem_singleton] at hb
      subst hb
      have haq : a ∈ q := by
        by_cases h1 : MAX_TOASTS < q.length + 1
        · rw [if_pos h1] at ha
          exact (List.drop_sublist 1 q).subset ha
        · rw [if_neg h1] at ha
          exact ha
      simpa [mkToast] using hfresh a haq
  | remove q id hq ih =>
    exact List.Pairwise.sublist (List.filter_sublist q) ih
  | clearStep q hq ih => exact List.Pairwise.nil

/-- Concrete run for C9: two toasts added with distinct fresh ids give a queue
with pairwise-distinct ids. -/
theorem toast_ids_distinct_witness :
    (addToast
      (addToast [] { type := ToastType.success, title := "S", message := "m",
                     duration := 3000, actions := none, details := none } "toast-1")
      { type := ToastType.info, title := "I", message := "m",
        duration := 3000, actions := none, details := none } "toast-2").Pairwise
      (fun a b => a.id ≠ b.id) :=
  toast_ids_distinct _
    (ReachableQueue.add _ _ _
      (ReachableQueue.add [] _ _ ReachableQueue.empty (by simp))
      (by decide))

/-- The closed event-kind registry `CanvasEvents` from `canvasEvents.ts`. -/
inductive EventKind where
  | previewImage
  | previewVideo
  | editCharacter
  | regenerateCharacter
  | deleteCharacter
  | editShot
  | regenerateShot
  | deleteShot
deriving DecidableEq, Repr

/-- A callback is identified by its JS reference identity, modelled as a
handle. -/
abbrev Callback := Nat

/-- The bus state `Map<keyof CanvasEvents, Set<EventCallback>>`: an
insertion-ordered association list; each value list is the insertion-ordered,
duplicate-free content of a JS `Set`. -/
abbrev Listeners := List (EventKind × List Callback)

/-- `Map.prototype.get` (also covers `has`: present iff `some`). -/
def mapGet (m : Listeners) (k : EventKind) : Option (List Callback) :=
  (m.find? (fun p => decide (p.1 = k))).map Prod.snd

/-- `Map.prototype.set`: overwrite the value at an existing key in place,
otherwise append the new entry. -/
def mapSet (m : Listeners) (k : EventKind) (v : List Callback) : Listeners :=
  if m.any (fun p => decide (p.1 = k)) then
    m.map (fun p => if p.1 = k then (k, v) else p)
  else m ++ [(k, v)]

/-- `Map.prototype.delete`. -/
def mapDelete (m : Listeners) (k : EventKind) : Listeners :=
  m.filter (fun p => decide (p.1 ≠ k))

/-- `Set.prototype.add`: append when absent, unchanged when already present. -/
def setAdd (s : List Callback) (cb : Callback) : List Callback :=
  if cb ∈ s then s else s ++ [cb]

/-- `Set.prototype.delete`: remove the element (a JS `Set` holds at most one
occurrence). -/
def setDelete (s : List Callback) (cb : Callback) : List Callback :=
  s.filter (fun x => decide (x ≠ cb))

/-- `CanvasEventBus.on` (named `busOn` here because `on` is reserved in Lean):
create the empty set for the kind if missing, then `add` the callback to the
kind's set. -/
def busOn (m : Listeners) (k : EventKind) (cb : Callback) : Listeners :=
  let m1 := if (mapGet m k).isNone then mapSet m k [] else m
  mapSet m1 k (setAdd ((mapGet m1 k).getD []) cb)

/-- The cancel closure returned by `CanvasEventBus.on`:
`this.listeners.get(event)?.delete(callback)`. -/
def cancel (m : Listeners) (k : EventKind) (cb : Callback) : Listeners :=
  match mapGet m k with
  | none => m
  | some s => mapSet m k (setDelete s cb)

/-- `CanvasEventBus.off`: with a callback, delete just that callback from the
kind's set; without one, delete the kind's whole entry from the map. -/
def off (m : Listeners) (k : EventKind) (cb : Option Callback) : Listeners :=
  match cb with
  | some c => cancel m k c
  | none => mapDelete m k

/-- The calls `CanvasEventBus.emit` performs: each callback in the kind's set,
in insertion order, applied to the payload (nothing when the kind is absent). -/
def emitTrace {α : Type} (m : Listeners) (k : EventKind) (payload : α) :
    List (Callback × α) :=
  ((mapGet m k).getD []).map (fun cb => (cb, payload))

/-- `CanvasEventBus.emit` as a state transformer: the trace of calls together
with the (unmodified) listener map. -/
def emitRun {α : Type} (m : Listeners) (k : EventKind) (payload : α) :
    List (Callback × α) × Listeners :=
  (emitTrace m k payload, m)

/-- `CanvasEventBus.clear`: `this.listeners.clear()`. -/
def clear (_m : Listeners) : Listeners := []

/-- The currently registered callbacks for a kind, in registration order. -/
def listenersFor (m : Listeners) (k : EventKind) : List Callback :=
  (mapGet m k).getD []

/-- Well-formedness the JS `Map`/`Set` structures guarantee by construction:
keys occur at most once and no set holds duplicate callbacks. -/
def BusWF (m : Listeners) : Prop :=
  (m.map Prod.fst).Nodup ∧ ∀ p ∈ m, p.2.Nodup

/-- Overwriting an existing key: lookup at that key finds the new value. -/
lemma find_map_replace (m : Listeners) (k : EventKind) (v : List Callback) :
    (m.map (fun p => if p.1 = k then (k, v) else p)).find? (fun p => decide (p.1 = k))
      = if m.any (fun p => decide (p.1 = k)) then some (k, v) else none := by
  induction m with
  | nil => simp
  | cons a t ih =>
    by_cases h : a.1 = k
    · have ha : (if a.1 = k then (k, v) else a) = (k, v) := if_pos h
      simp [List.map_cons, ha, List.find?_cons, List.any_cons, h]
    · have ha : (if a.1 = k then (k, v) else a) = a := if_neg h
      rw [List.map_cons, ha, List.find?_cons_of_neg _ (by simpa using h), List.any_cons]
      have hd : (decide (a.1 = k)) = false := by simp [h]
      rw [hd, Bool.false_or]
      exact ih

/-- Overwriting one key leaves lookups at other keys unchanged. -/
lemma find_map_replace_ne (m : Listeners) (k : EventKind) (v : List Callback)
    (k' : EventKind) (hne : k' ≠ k) :
    (m.map (fun p => if p.1 = k then (k, v) else p)).find? (fun p => decide (p.1 = k'))
      = m.find? (fun p => decide (p.1 = k')) := by
  induction m with
  | nil => simp
  | cons a t ih =>
    by_cases h : a.1 = k
    · have ha : (if a.1 = k then (k, v) else a) = (k, v) := if_pos h
      have hd1 : (decide (((k, v) : EventKind × List Callback).1 = k')) = false := by
        simp [Ne.symm hne]
      have hd2 : (decide (a.1 = k')) = false := by
        rw [h]
        simp [Ne.symm hne]
      simp [List.map_cons, ha, List.find?_cons, hd1, hd2, ih]
    · have ha : (if a.1 = k then (k, v) else a) = a := if_neg h
      rw [List.map_cons, ha, List.find?_cons, List.find?_cons]
      by_cases h2 : decide (a.1 = k') = true
      · simp [h2]
      · have h2f : (decide (a.1 = k')) = false := Bool.eq_false_iff.mpr h2
        simp [h2f, ih]

/-- Overwriting a key present in the map keeps the key set intact. -/
lemma any_map_replace (m : Listeners) (k : EventKind) (v : List Callback) :
    (m.map (fun p => if p.1 = k then (k, v) else p)).any (fun p => decide (p.1 = k))
      = m.any (fun p => decide (p.1 = k)) := by
  induction m with
  | nil => rfl
  | cons a t ih => by_cases h : a.1 = k <;> simp [h, ih]

/-- Two successive overwrites of the same key collapse to the second. -/
lemma map_replace_replace (m : Listeners) (k : EventKind) (v w : List Callback) :
    ((m.map (fun p => if p.1 = k then (k, v) else p)).map
        (fun p => if p.1 = k then (k, w) else p))
      = m.map (fun p => if p.1 = k then (k, w) else p) := by
  induction m with
  | nil => rfl
  | cons a t ih => by_cases h : a.1 = k <;> simp [h, ih]

/-- Overwriting a key absent from the map changes nothing. -/
lemma map_replace_of_absent (m : Listeners) (k : EventKind) (w : List Callback)
    (h : m.any (fun p => decide (p.1 = k)) = false) :
    m.map (fun p => if p.1 = k then (k, w) else p) = m := by
  induction m with
  | nil => rfl
  | cons a t ih =>
    simp only [List.any_cons, Bool.or_eq_false_iff] at h
    have h1 : ¬ a.1 = k := by simpa using h.1
    simp [h1, ih h.2]

/-- A key that fails `any` also fails `find?`. -/
lemma find_eq_none_of_any_false (m : Listeners) (k : EventKind)
    (h : m.any (fun p => decide (p.1 = k)) = false) :
    m.find? (fun p => decide (p.1 = k)) = none := by
  induction m with
  | nil => rfl
  | cons a t ih =>
    simp only [List.any_cons, Bool.or_eq_false_iff] at h
    have h1 : ¬ a.1 = k := by simpa using h.1
    simp [List.find?_cons, h1, ih h.2]

/-- `mapGet` after `mapSet` at the same key. -/
lemma mapGet_mapSet_self (m : Listeners) (k : EventKind) (v : List Callback) :
    mapGet (mapSet m k v) k = some v := by
  unfold mapGet mapSet
  by_cases h : m.any (fun p => decide (p.1 = k))
  · rw [if_pos h, find_map_replace, if_pos h]
    rfl
  · have hb : m.any (fun p => decide (p.1 = k)) = false := Bool.eq_false_iff.mpr h
    rw [if_neg h, List.find?_append, find_eq_none_of_any_false m k hb]
    simp

/-- `mapGet` after `mapSet` at a different key. -/
lemma mapGet_mapSet_ne (m : Listeners) (k : EventKind) (v : List Callback)
    (k' : EventKind) (hne : k' ≠ k) :
    mapGet (mapSet m k v) k' = mapGet m k' := by
  unfold mapGet mapSet
  by_cases h : m.any (fun p => decide (p.1 = k))
  · rw [if_pos h, find_map_replace_ne m k v k' hne]
  · rw [if_neg h, List.find?_append]
    have hlast : ([(k, v)] : Listeners).find? (fun p => decide (p.1 = k')) = none := by
      simp [List.find?_cons, Ne.symm hne]
    rw [hlast]
    cases hx : m.find? (fun p => decide (p.1 = k')) <;> simp [Option.orElse]

/-- Two successive `mapSet`s at the same key collapse to the second. -/
lemma mapSet_mapSet (m : Listeners) (k : EventKind) (v w : List Callback) :
    mapSet (mapSet m k v) k w = mapSet m k w := by
  unfold mapSet
  by_cases h : m.any (fun p => decide (p.1 = k))
  · rw [if_pos h]
    rw [if_pos (by rw [any_map_replace]; exact h)]
    rw [if_pos h, map_replace_replace]
  · have hb : m.any (fun p => decide (p.1 = k)) = false := Bool.eq_false_iff.mpr h
    have hany : (m ++ [(k, v)]).any (fun p => decide (p.1 = k)) = true := by
      rw [List.any_append]
      simp
    rw [if_neg h, if_pos hany, List.map_append, map_replace_of_absent m k w hb]
    simp
    rw [if_neg h]

/-- `mapGet` after `mapDelete` at the deleted key. -/
lemma mapGet_mapDelete_self (m : Listeners) (k : EventKind) :
    mapGet (mapDelete m k) k = none := by
  unfold mapGet mapDelete
  have hf : (m.filter (fun p => decide (p.1 ≠ k))).find? (fun p => decide (p.1 = k))
      = none := by
    rw [List.find?_eq_none]
    intro p hp
    have hmem := List.of_mem_filter hp
    simp only [decide_eq_true_eq] at hmem
    simpa using hmem
  rw [hf]
  rfl

/-- `mapGet` after `mapDelete` at a different key. -/
lemma mapGet_mapDelete_ne (m : Listeners) (k k' : EventKind) (hne : k' ≠ k) :
    mapGet (mapDelete m k) k' = mapGet m k' := by
  unfold mapGet mapDelete
  induction m with
  | nil => rfl
  | cons a t ih =>
    by_cases h : a.1 = k
    · have hd : ¬ (a.1 ≠ k) := by simp [h]
      have h2 : ¬ (a.1 = k') := by
        rw [h]
        exact Ne.symm hne
      rw [List.filter_cons]
      simp only [decide_eq_true_eq, if_neg hd]
      rw [List.find?_cons_of_neg _ (by simpa using h2)]
      exact ih
    · rw [List.filter_cons]
      simp only [decide_eq_true_eq, if_pos h]
      by_cases h2 : a.1 = k'
      · rw [List.find?_cons_of_pos _ (by simpa using h2),
          List.find?_cons_of_pos _ (by simpa using h2)]
      · rw [List.find?_cons_of_neg _ (by simpa using h2),
          List.find?_cons_of_neg _ (by simpa using h2)]
        exact ih

/-- `setAdd` always contains the added callback. -/
lemma mem_setAdd_self (s : List Callback) (cb : Callback) : cb ∈ setAdd s cb := by
  unfold setAdd
  by_cases h : cb ∈ s <;> simp [h]

/-- Adding a callback already in the set is the identity. -/
lemma setAdd_of_mem (s : List Callback) (cb : Callback) (h : cb ∈ s) :
    setAdd s cb = s := if_pos h

/-- `setAdd` twice is `setAdd` once. -/
lemma setAdd_idem (s : List Callback) (cb : Callback) :
    setAdd (setAdd s cb) cb = setAdd s cb :=
  setAdd_of_mem _ _ (mem_setAdd_self s cb)

/-- `setAdd` preserves duplicate-freedom. -/
lemma setAdd_nodup (s : List Callback) (cb : Callback) (h : s.Nodup) :
    (setAdd s cb).Nodup := by
  unfold setAdd
  by_cases hm : cb ∈ s
  · simpa [hm] using h
  · rw [if_neg hm, List.nodup_append]
    refine ⟨h, List.nodup_singleton cb, ?_⟩
    intro x hx hx2
    rw [List.mem_singleton] at hx2
    subst hx2
    exact hm hx

/-- Membership in `setAdd`. -/
lemma mem_setAdd (s : List Callback) (cb x : Callback) :
    x ∈ setAdd s cb ↔ x ∈ s ∨ x = cb := by
  unfold setAdd
  by_cases h : cb ∈ s
  · simp only [if_pos h]
    constructor
    · exact fun hx => Or.inl hx
    · rintro (hx | rfl)
      · exact hx
      · exact h
  · simp [if_neg h]

/-- Membership in `setDelete`. -/
lemma mem_setDelete (s : List Callback) (cb x : Callback) :
    x ∈ setDelete s cb ↔ x ∈ s ∧ x ≠ cb := by
  unfold setDelete
  simp [List.mem_filter]

/-- `setDelete` twice is `setDelete` once. -/
lemma setDelete_idem (s : List Callback) (cb : Callback) :
    setDelete (setDelete s cb) cb = setDelete s cb := by
  unfold setDelete
  rw [List.filter_filter]
  apply List.filter_congr
  intro x _
  simp

/-- `setDelete` preserves duplicate-freedom. -/
lemma setDelete_nodup (s : List Callback) (cb : Callback) (h : s.Nodup) :
    (setDelete s cb).Nodup :=
  h.filter _

/-- `busOn` in closed form: overwrite the kind's entry with the `setAdd`-ed
current set (the current set is empty when the kind is absent). -/
lemma busOn_eq (m : Listeners) (k : EventKind) (cb : Callback) :
    busOn m k cb = mapSet m k (setAdd (listenersFor m k) cb) := by
  unfold busOn listenersFor
  cases hm : mapGet m k with
  | none =>
    simp only [hm, Option.isNone_none, if_pos, mapGet_mapSet_self, Option.getD_some,
      Option.getD_none]
    rw [mapSet_mapSet]
  | some s =>
    simp [hm]

/-- Registered callbacks after `busOn` at the registered kind. -/
lemma listenersFor_busOn_self (m : Listeners) (k : EventKind) (cb : Callback) :
    listenersFor (busOn m k cb) k = setAdd (listenersFor m k) cb := by
  rw [busOn_eq]
  unfold listenersFor
  rw [mapGet_mapSet_self]
  rfl

/-- `busOn` leaves other kinds' entries unchanged. -/
lemma mapGet_busOn_ne (m : Listeners) (k : EventKind) (cb : Callback)
    (k' : EventKind) (hne : k' ≠ k) :
    mapGet (busOn m k cb) k' = mapGet m k' := by
  rw [busOn_eq]
  exact mapGet_mapSet_ne m k _ k' hne

/-- Registered callbacks after `cancel` at the cancelled kind. -/
lemma listenersFor_cancel_self (m : Listeners) (k : EventKind) (cb : Callback) :
    listenersFor (cancel m k cb) k = setDelete (listenersFor m k) cb := by
  unfold cancel listenersFor
  cases hm : mapGet m k with
  | none =>
    simp only [hm, Option.getD_none]
    rfl
  | some s =>
    simp only [hm, mapGet_mapSet_self, Option.getD_some]

/-- `cancel` leaves other kinds' entries unchanged. -/
lemma mapGet_cancel_ne (m : Listeners) (k : EventKind) (cb : Callback)
    (k' : EventKind) (hne : k' ≠ k) :
    mapGet (cancel m k cb) k' = mapGet m k' := by
  unfold cancel
  cases hm : mapGet m k with
  | none => rfl
  | some s => exact mapGet_mapSet_ne m k _ k' hne

/-- In a well-formed bus every kind's callback list is duplicate-free. -/
lemma listenersFor_nodup (m : Listeners) (k : EventKind) (hw : BusWF m) :
    (listenersFor m k).Nodup := by
  unfold listenersFor mapGet
  cases hf : m.find? (fun p => decide (p.1 = k)) with
  | none => exact List.nodup_nil
  | some p => exact hw.2 p (List.mem_of_find?_eq_some hf)

/-- A key failing `any` is not among the map's keys. -/
lemma not_mem_keys_of_any_false (m : Listeners) (k : EventKind)
    (h : m.any (fun p => decide (p.1 = k)) = false) :
    k ∉ m.map Prod.fst := by
  intro hk
  rw [List.mem_map] at hk
  obtain ⟨p, hp, hpk⟩ := hk
  rw [List.any_eq_false] at h
  have hnp := h p hp
  simp only [decide_eq_true_eq] at hnp
  exact hnp hpk

/-- `mapSet` with a duplicate-free value preserves well-formedness. -/
lemma busWF_mapSet (m : Listeners) (k : EventKind) (v : List Callback)
    (hw : BusWF m) (hv : v.Nodup) : BusWF (mapSet m k v) := by
  unfold mapSet
  by_cases h : m.any (fun p => decide (p.1 = k))
  · rw [if_pos h]
    constructor
    · have hkeys : (m.map (fun p => if p.1 = k then (k, v) else p)).map Prod.fst
          = m.map Prod.fst := by
        rw [List.map_map]
        apply List.map_congr_left
        intro p _
        by_cases hp : p.1 = k <;> simp [hp]
      rw [hkeys]
      exact hw.1
    · intro p hp
      rw [List.mem_map] at hp
      obtain ⟨q, hq, rfl⟩ := hp
      by_cases hq2 : q.1 = k
      · simpa [hq2] using hv
      · simp only [if_neg hq2]
        exact hw.2 q hq
  · have hb : m.any (fun p => decide (p.1 = k)) = false := Bool.eq_false_iff.mpr h
    rw [if_neg h]
    constructor
    · rw [List.map_append, List.nodup_append]
      refine ⟨hw.1, by simp, ?_⟩
      intro x hx hx2
      simp only [List.map_cons, List.map_nil, List.mem_singleton] at hx2
      subst hx2
      exact not_mem_keys_of_any_false m x hb hx
    · intro p hp
      rw [List.mem_append] at hp
      rcases hp with hp | hp
      · exact hw.2 p hp
      · rw [List.mem_singleton] at hp
        subst hp
        exact hv

/-- `mapDelete` preserves well-formedness. -/
lemma busWF_mapDelete (m : Listeners) (k : EventKind) (hw : BusWF m) :
    BusWF (mapDelete m k) := by
  unfold mapDelete
  constructor
  · exact hw.1.sublist ((List.filter_sublist m).map Prod.fst)
  · intro p hp
    exact hw.2 p (List.mem_of_mem_filter hp)

/-- `busOn` preserves well-formedness. -/
lemma busWF_busOn (m : Listeners) (k : EventKind) (cb : Callback)
    (hw : BusWF m) : BusWF (busOn m k cb) := by
  rw [busOn_eq]
  exact busWF_mapSet m k _ hw (setAdd_nodup _ _ (listenersFor_nodup m k hw))

/-- `cancel` preserves well-formedness. -/
lemma busWF_cancel (m : Listeners) (k : EventKind) (cb : Callback)
    (hw : BusWF m) : BusWF (cancel m k cb) := by
  unfold cancel
  cases hm : mapGet m k with
  | none => exact hw
  | some s =>
    apply busWF_mapSet m k _ hw
    apply setDelete_nodup
    have hs : listenersFor m k = s := by
      unfold listenersFor
      rw [hm]
      rfl
    rw [← hs]
    exact listenersFor_nodup m k hw

/-- Bus states reachable from the freshly constructed (empty) singleton via
its four methods. -/
inductive ReachableBus : Listeners → Prop where
  | empty : ReachableBus []
  | onStep (m : Listeners) (k : EventKind) (cb : Callback)
      (hm : ReachableBus m) : ReachableBus (busOn m k cb)
  | cancelStep (m : Listeners) (k : EventKind) (cb : Callback)
      (hm : ReachableBus m) : ReachableBus (cancel m k cb)
  | offStep (m : Listeners) (k : EventKind) (c : Option Callback)
      (hm : ReachableBus m) : ReachableBus (off m k c)
  | clearStep (m : Listeners) (hm : ReachableBus m) : ReachableBus (clear m)

/-- Every reachable bus state is well-formed: the `BusWF` hypotheses of the
theorems below hold in every state the program can actually produce. -/
lemma busWF_of_reachable (m : Listeners) (h : ReachableBus m) : BusWF m := by
  induction h with
  | empty => exact ⟨List.nodup_nil, fun p hp => absurd hp (List.not_mem_nil p)⟩
  | onStep m k cb hm ih => exact busWF_busOn m k cb ih
  | cancelStep m k cb hm ih => exact busWF_cancel m k cb ih
  | offStep m k c hm ih =>
    cases c with
    | none => exact busWF_mapDelete m k ih
    | some cb => exact busWF_cancel m k cb ih
  | clearStep m hm ih =>
    exact ⟨List.nodup_nil, fun p hp => absurd hp (List.not_mem_nil p)⟩

/-- `cancel` when the kind has no entry: `get(event)?.delete` short-circuits. -/
lemma cancel_eq_none (m : Listeners) (k : EventKind) (cb : Callback)
    (hm : mapGet m k = none) : cancel m k cb = m := by
  unfold cancel
  rw [hm]

/-- `cancel` when the kind has an entry: delete the callback from its set. -/
lemma cancel_eq_some (m : Listeners) (k : EventKind) (cb : Callback)
    (s : List Callback) (hm : mapGet m k = some s) :
    cancel m k cb = mapSet m k (setDelete s cb) := by
  unfold cancel
  rw [hm]

/-- `BusWF` is checkable on concrete states. -/
instance (m : Listeners) : Decidable (BusWF m) := by
  unfold BusWF
  exact instDecidableAnd

/-- Mapping a duplicate-free callback list to calls and keeping only the calls
aimed at a member `cb` leaves exactly the one call `(cb, payload)`. -/
lemma emit_calls_once {α : Type} (s : List Callback) (payload : α) (cb : Callback)
    (h : s.Nodup) (hm : cb ∈ s) :
    (s.map (fun c => (c, payload))).filter (fun e => decide (e.1 = cb))
      = [(cb, payload)] := by
  induction s with
  | nil => cases hm
  | cons a t ih =>
    rw [List.nodup_cons] at h
    rw [List.map_cons, List.filter_cons]
    by_cases ha : a = cb
    · subst ha
      rw [if_pos (by simp)]
      have ht : (t.map (fun c => (c, payload))).filter
          (fun e => decide (e.1 = a)) = [] := by
        rw [List.filter_eq_nil_iff]
        intro e he
        rw [List.mem_map] at he
        obtain ⟨c, hc, rfl⟩ := he
        simp only [decide_eq_true_eq]
        intro hca
        subst hca
        exact h.1 hc
      rw [ht]
    · have hm2 : cb ∈ t := by
        cases hm with
        | head => exact absurd rfl ha
        | tail _ hm2 => exact hm2
      rw [if_neg (by simpa using ha)]
      exact ih h.2 hm2

/-- C2: `emit(kind, payload)` calls exactly the callbacks currently registered
for `kind`, in registration order, passing `payload` to each; each registered
callback receives exactly one call; and no callback outside `kind`'s set is
called. -/
theorem emit_spec {α : Type} (m : Listeners) (hw : BusWF m)
    (k : EventKind) (payload : α) :
    emitTrace m k payload = (listenersFor m k).map (fun cb => (cb, payload))
    ∧ (∀ cb, cb ∈ listenersFor m k →
        (emitTrace m k payload).filter (fun e => decide (e.1 = cb))
          = [(cb, payload)])
    ∧ (∀ cb x, (cb, x) ∈ emitTrace m k payload →
        cb ∈ listenersFor m k ∧ x = payload) := by
  refine ⟨rfl, ?_, ?_⟩
  · intro cb hcb
    exact emit_calls_once (listenersFor m k) payload cb
      (listenersFor_nodup m k hw) hcb
  · intro cb x hmem
    have hmem2 : (cb, x) ∈ (listenersFor m k).map (fun c => (c, payload)) := hmem
    rw [List.mem_map] at hmem2
    obtain ⟨c, hc, hcx⟩ := hmem2
    injection hcx with h1 h2
    subst h1
    subst h2
    exact ⟨hc, rfl⟩

/-- Concrete run for C2: two callbacks registered for the same kind are both
called exactly once, in registration order, with the payload. -/
theorem emit_spec_witness :
    BusWF (busOn (busOn ([] : Listeners) EventKind.previewImage 1)
      EventKind.previewImage 2)
    ∧ emitTrace (busOn (busOn ([] : Listeners) EventKind.previewImage 1)
        EventKind.previewImage 2) EventKind.previewImage (7 : Nat)
      = [(1, 7), (2, 7)]
    ∧ (emitTrace (busOn (busOn ([] : Listeners) EventKind.previewImage 1)
        EventKind.previewImage 2) EventKind.previewImage (7 : Nat)).filter
          (fun e => decide (e.1 = 1))
      = [(1, 7)] := by
  have h := emit_spec (busOn (busOn ([] : Listeners) EventKind.previewImage 1)
    EventKind.previewImage 2) (by decide) EventKind.previewImage (7 : Nat)
  exact ⟨by decide, by decide, h.2.1 1 (by decide)⟩

/-- C4: registering the same callback twice for the same kind is the same
state as registering it once; the kind's listener set stays duplicate-free;
and an emit then delivers exactly one call to that callback. -/
theorem on_idempotent (m : Listeners) (k : EventKind) (cb : Callback) :
    busOn (busOn m k cb) k cb = busOn m k cb
    ∧ (BusWF m → (listenersFor (busOn m k cb) k).Nodup)
    ∧ (BusWF m → ∀ payload : Nat,
        (emitTrace (busOn m k cb) k payload).filter (fun e => decide (e.1 = cb))
          = [(cb, payload)]) := by
  refine ⟨?_, ?_, ?_⟩
  · rw [busOn_eq (busOn m k cb) k cb, listenersFor_busOn_self, setAdd_idem,
      busOn_eq m k cb, mapSet_mapSet]
  · intro hw
    rw [listenersFor_busOn_self]
    exact setAdd_nodup _ _ (listenersFor_nodup m k hw)
  · intro hw payload
    show ((listenersFor (busOn m k cb) k).map (fun c => (c, payload))).filter
        (fun e => decide (e.1 = cb)) = [(cb, payload)]
    rw [listenersFor_busOn_self]
    exact emit_calls_once _ payload cb
      (setAdd_nodup _ _ (listenersFor_nodup m k hw)) (mem_setAdd_self _ _)

/-- Concrete run for C4: double registration on the empty bus collapses to a
single registration. -/
theorem on_idempotent_witness :
    BusWF ([] : Listeners)
    ∧ busOn (busOn ([] : Listeners) EventKind.editShot 3) EventKind.editShot 3
        = busOn ([] : Listeners) EventKind.editShot 3
    ∧ (listenersFor (busOn ([] : Listeners) EventKind.editShot 3)
        EventKind.editShot).Nodup
    ∧ (emitTrace (busOn ([] : Listeners) EventKind.editShot 3) EventKind.editShot
        (0 : Nat)).filter (fun e => decide (e.1 = 3)) = [(3, 0)] := by
  have h := on_idempotent ([] : Listeners) EventKind.editShot 3
  exact ⟨by decide, h.1, h.2.1 (by decide), h.2.2 (by decide) 0⟩

/-- C5: the cancel closure returned by `on` is idempotent: the first call
removes exactly the registered callback from exactly that kind's set (other
kinds untouched), and the second call changes nothing more. -/
theorem cancel_idempotent (m : Listeners) (k : EventKind) (cb : Callback) :
    cancel (cancel m k cb) k cb = cancel m k cb
    ∧ (∀ cb', cb' ∈ listenersFor (cancel m k cb) k
        ↔ cb' ∈ listenersFor m k ∧ cb' ≠ cb)
    ∧ (∀ k', k' ≠ k → mapGet (cancel m k cb) k' = mapGet m k') := by
  refine ⟨?_, ?_, ?_⟩
  · cases hm : mapGet m k with
    | none =>
      rw [cancel_eq_none m k cb hm]
      exact cancel_eq_none m k cb hm
    | some s =>
      rw [cancel_eq_some m k cb s hm]
      rw [cancel_eq_some (mapSet m k (setDelete s cb)) k cb (setDelete s cb)
        (mapGet_mapSet_self m k _)]
      rw [setDelete_idem, mapSet_mapSet]
  · intro cb'
    rw [listenersFor_cancel_self, mem_setDelete]
  · intro k' hne
    exact mapGet_cancel_ne m k cb k' hne

/-- Concrete run for C5: cancelling a registration twice equals cancelling it
once, the callback is gone after the first call, and other kinds are
untouched. -/
theorem cancel_idempotent_witness :
    cancel (cancel (busOn ([] : Listeners) EventKind.deleteShot 4)
        EventKind.deleteShot 4) EventKind.deleteShot 4
      = cancel (busOn ([] : Listeners) EventKind.deleteShot 4) EventKind.deleteShot 4
    ∧ 4 ∉ listenersFor (cancel (busOn ([] : Listeners) EventKind.deleteShot 4)
        EventKind.deleteShot 4) EventKind.deleteShot
    ∧ mapGet (cancel (busOn ([] : Listeners) EventKind.deleteShot 4)
          EventKind.deleteShot 4) EventKind.previewImage
        = mapGet (busOn ([] : Listeners) EventKind.deleteShot 4)
            EventKind.previewImage := by
  have h := cancel_idempotent (busOn ([] : Listeners) EventKind.deleteShot 4)
    EventKind.deleteShot 4
  refine ⟨h.1, ?_, h.2.2 EventKind.previewImage (by decide)⟩
  intro hmem
  exact ((h.2.1 4).mp hmem).2 rfl

/-- C6: `off(kind)` without a callback removes the whole listener set for that
kind (other kinds untouched) so a subsequent emit for it calls nothing, while
`off(kind, callback)` removes only that callback from that kind's set. -/
theorem off_spec {α : Type} (m : Listeners) (k : EventKind) (payload : α) :
    mapGet (off m k none) k = none
    ∧ (∀ k', k' ≠ k → mapGet (off m k none) k' = mapGet m k')
    ∧ emitTrace (off m k none) k payload = []
    ∧ (∀ cb : Callback, off m k (some cb) = cancel m k cb
        ∧ ∀ cb', cb' ∈ listenersFor (off m k (some cb)) k
            ↔ cb' ∈ listenersFor m k ∧ cb' ≠ cb) := by
  refine ⟨?_, ?_, ?_, ?_⟩
  · exact mapGet_mapDelete_self m k
  · intro k' hne
    exact mapGet_mapDelete_ne m k k' hne
  · show ((mapGet (off m k none) k).getD []).map (fun cb => (cb, payload)) = []
    rw [show mapGet (off m k none) k = none from mapGet_mapDelete_self m k]
    rfl
  · intro cb
    refine ⟨rfl, ?_⟩
    intro cb'
    show cb' ∈ listenersFor (cancel m k cb) k ↔ _
    rw [listenersFor_cancel_self, mem_setDelete]

/-- Concrete run for C6: removing a kind wholesale silences its emit and
leaves another kind's registration alone. -/
theorem off_spec_witness :
    mapGet (off (busOn ([] : Listeners) EventKind.deleteCharacter 9)
        EventKind.deleteCharacter none) EventKind.deleteCharacter = none
    ∧ emitTrace (off (busOn ([] : Listeners) EventKind.deleteCharacter 9)
        EventKind.deleteCharacter none) EventKind.deleteCharacter (7 : Nat) = []
    ∧ mapGet (off (busOn (busOn ([] : Listeners) EventKind.deleteCharacter 9)
          EventKind.previewVideo 8) EventKind.deleteCharacter none)
        EventKind.previewVideo
      = mapGet (busOn (busOn ([] : Listeners) EventKind.deleteCharacter 9)
          EventKind.previewVideo 8) EventKind.previewVideo := by
  have h1 := off_spec (busOn ([] : Listeners) EventKind.deleteCharacter 9)
    EventKind.deleteCharacter (7 : Nat)
  have h2 := off_spec (busOn (busOn ([] : Listeners) EventKind.deleteCharacter 9)
    EventKind.previewVideo 8) EventKind.deleteCharacter (7 : Nat)
  exact ⟨h1.1, h1.2.2.1, h2.2.1 EventKind.previewVideo (by decide)⟩

/-- C8: emitting a kind with no currently registered listeners performs no
call and leaves the listener map exactly as it was. -/
theorem emit_no_listeners {α : Type} (m : Listeners) (k : EventKind)
    (payload : α) (h : listenersFor m k = []) :
    (emitRun m k payload).1 = [] ∧ (emitRun m k payload).2 = m := by
  refine ⟨?_, rfl⟩
  show (listenersFor m k).map (fun cb => (cb, payload)) = []
  rw [h]
  rfl

/-- Concrete run for C8: a kind whose only callback was cancelled (entry
present, set empty) emits nothing and the map is untouched. -/
theorem emit_no_listeners_witness :
    listenersFor (cancel (busOn ([] : Listeners) EventKind.regenerateShot 5)
        EventKind.regenerateShot 5) EventKind.regenerateShot = []
    ∧ (emitRun (cancel (busOn ([] : Listeners) EventKind.regenerateShot 5)
        EventKind.regenerateShot 5) EventKind.regenerateShot (42 : Nat)).1 = []
    ∧ (emitRun (cancel (busOn ([] : Listeners) EventKind.regenerateShot 5)
        EventKind.regenerateShot 5) EventKind.regenerateShot (42 : Nat)).2
      = cancel (busOn ([] : Listeners) EventKind.regenerateShot 5)
          EventKind.regenerateShot 5 := by
  have h := emit_no_listeners (cancel (busOn ([] : Listeners)
    EventKind.regenerateShot 5) EventKind.regenerateShot 5)
    EventKind.regenerateShot (42 : Nat) (by decide)
  exact ⟨by decide, h.1, h.2⟩
